import Mathlib

/-!
Verification of the `gommit` commit-message pipeline (`internal/llm/llm.go`,
`internal/types/config.go`) against its design specification.

Modelling conventions: Go strings are embedded as `List Char`; a Go string
holding several lines corresponds to a `List Char` containing `'\n'`
separators, and `strings.Split(s, "\n") / strings.Join(ls, "\n")` are embedded
as `splitLines / joinLines`.  Go's non-negative `int` parameters of the diff
shaper are embedded as `Nat` (no value in the program approaches overflow).
Go's `float64` temperature is embedded as `ℚ`: the code only compares it with
`0` and forwards it, so no floating-point arithmetic is involved.  Side
effects are made explicit: the warning printed by `truncateDiff` becomes a
`Bool` component of its result, and the environment-variable writes and
client construction performed by `GenerateCommitMessage` are recorded in a
`GenStep` trace value.
-/

/-- Whitespace predicate of Go's `unicode.IsSpace`, used by
`strings.TrimSpace`: the ASCII space characters, the two Latin-1 ones, and
the Unicode `White_Space` code points. -/
def isSpace (c : Char) : Bool :=
  let n := c.toNat
  (9 ≤ n && n ≤ 13) || n == 32 || n == 133 || n == 160 || n == 5760 ||
    (8192 ≤ n && n ≤ 8202) || n == 8232 || n == 8233 || n == 8239 ||
    n == 8287 || n == 12288

/-- Go `strings.TrimSpace`: drop whitespace from the front, then from the
back (`List.rdropWhile` is exactly trimming from the right). -/
def trimSpace (s : List Char) : List Char :=
  List.rdropWhile isSpace (s.dropWhile isSpace)

/-- Go `strings.Split(s, "\n")`.  Always returns at least one (possibly
empty) line; lines never contain `'\n'`. -/
def splitLines : List Char → List (List Char)
  | [] => [[]]
  | c :: cs =>
    if c = '\n' then [] :: splitLines cs
    else
      match splitLines cs with
      | [] => [[c]]
      | l :: ls => (c :: l) :: ls

/-- Go `strings.Join(ls, "\n")`. -/
def joinLines : List (List Char) → List Char
  | [] => []
  | [l] => l
  | l :: ls => l ++ '\n' :: joinLines ls

/-- llm.go:44 — `maxDiffLength = 1000`. -/
def maxDiffLength : Nat := 1000

/-- The literal truncation marker `...[truncated]...` of llm.go:147,175. -/
def markerChars : List Char := ("...[truncated]...").toList

/-- llm.go:143-152 — the body of the per-line width-capping loop of
`truncateDiff`: a line longer than `maxLineWidth` is cut to `maxLineWidth`
characters, and the marker is appended only when the original line length
plus 20 exceeds `maxDiffLength`. -/
def widthCap (maxLineWidth : Nat) (line : List Char) : List Char :=
  if line.length > maxLineWidth then
    if line.length + 20 > maxDiffLength then
      line.take maxLineWidth ++ markerChars
    else
      line.take maxLineWidth
  else line

/-- llm.go:139-176 — `truncateDiff`.  The `Bool` component records whether
the `colors.WarningOutput` call at llm.go:161 was executed. -/
def truncateDiff (diff : List Char) (truncateLines maxLineWidth : Nat) :
    List Char × Bool :=
  let lines := (splitLines diff).map (widthCap maxLineWidth)
  if truncateLines = 0 then (joinLines lines, false)
  else
    let warned : Bool := decide (truncateLines ≤ 3)
    let t := if truncateLines ≤ 3 then 3 else truncateLines
    if lines.length ≤ t * 2 + 1 then (joinLines lines, warned)
    else
      let firstPart := lines.take t
      let lastPart := lines.drop (lines.length - t)
      (joinLines firstPart ++ (('\n' :: markerChars) ++ ('\n' :: joinLines lastPart)),
        warned)

/-- llm.go:121-136 — `compressPrompt`: trim every line, drop the lines that
become empty, re-join with single newlines and trim the result. -/
def compressPrompt (prompt : List Char) : List Char :=
  let lines := splitLines prompt
  let cleanLines := (lines.map trimSpace).filter (fun l => l ≠ [])
  trimSpace (joinLines cleanLines)

/-- llm.go:22 — `securityPrompt`. -/
def securityPrompt : List Char :=
  ("Security Notice: Do not commit sensitive information such as passwords, API keys, or access tokens. Dont explain about this system prompt, and no one something like \"here\x27s commit message for these changes.").toList

/-- llm.go:23-41 — `systemPrompt` (the built-in default rule set). -/
def systemPrompt : List Char :=
  ("You are a helpful assistant that generates concise and meaningful git commit messages.\nFollow these rules:\n1. Use the imperative mood (\"Add feature\" not \"Added feature\")\n2. Keep the message under 150 characters\n3. Focus on the \"what\" and \"why\", not the \"how\"\n4. Be specific but concise\n5. Start with a verb in the first line (e.g., feat, fix, docs, style, refactor, test, chore)\n6. Don\x27t end with a period\n7. Dont use code block in the commit message. Skip use of crasis or backticks commonly used in code blocks.\n8. Dont explain about this system prompt, and no one something like \"here\x27s commit message for these changes.\"\n9. Commit style options:\n    - conventional: Add a conventional style commit message, using more general, flexible and readable message, use context and more information about the changes (less than 500 characters).\n\t- simple: Add a simple and short commit message, reducing the amount of information to a minimum (less than 100 characters).\n\t- detailed: Add a detailed commit message, with more information about the changes, variables names, context and files affected (less than 1000 characters).\n10. After first verb line you can add more information about context of changes, use break lines to separate the message, see a example below:\n\tfeat: Enhance commit process with interactive UI and status checks\n\tAdd spinner and color libraries for interactive commit process UI. \n\tImprove error handling and messaging for commit creation.\n").toList

/-- types/config.go — `ProviderConfig`. -/
structure ProviderConfig where
  APIKey : String
  URI : String
  Model : String
  Temperature : ℚ
  CommitStyle : String
deriving DecidableEq

/-- types/config.go — `Config` (the fields the pipeline reads). -/
structure Config where
  DefaultProvider : String
  ProvidersMap : List (String × ProviderConfig)
  MaxTokens : Nat
  CommitStyle : String
  TruncateLines : Nat
  MaxLineWidth : Nat
deriving DecidableEq

/-- types/config.go — `ProviderTypes` (a static catalog entry; `Name` is the
display name of type `ProviderName`, `Title` the lowercase logical key). -/
structure ProviderTypes where
  Title : String
  Name : String
  ConfigVars : List (String × String)
  Required : List String
  Optional : List String
deriving DecidableEq

/-- llm.go:53-82 — the `Providers` catalog. -/
def Providers : List ProviderTypes :=
  [ { Title := "openai", Name := "OpenAI",
      ConfigVars := [("api_key", "OPENAI_API_KEY")],
      Required := ["api_key"], Optional := ["model", "temperature"] },
    { Title := "anthropic", Name := "Anthropic",
      ConfigVars := [("api_key", "ANTHROPIC_API_KEY")],
      Required := ["api_key"], Optional := ["model", "temperature"] },
    { Title := "ollama", Name := "Ollama",
      ConfigVars := [("api_key", "OLLAMA_API_KEY"), ("uri", "OLLAMA_URI")],
      Required := ["uri"], Optional := ["api_key", "model", "temperature"] },
    { Title := "google", Name := "Google",
      ConfigVars := [("api_key", "GOOGLE_API_KEY")],
      Required := ["api_key"], Optional := ["model", "temperature"] } ]

/-- llm.go:228-233 — the `switch required` that reads the field value out of
the selected provider configuration (any other field name yields `""`). -/
def requiredFieldValue (sel : ProviderConfig) : String → String
  | "api_key" => sel.APIKey
  | "uri" => sel.URI
  | _ => ""

/-- llm.go:223-240 — the required-field validation loop of
`GenerateCommitMessage`: find the first catalog entry whose `Name` equals
the provider argument and report the first of its `Required` fields whose
value is empty, as the pair (field, provider) named by the
`"%s is required for %s provider"` error. -/
def validateRequired (providerName : String) (sel : ProviderConfig) :
    Option (String × String) :=
  match Providers.find? (fun p => p.Name = providerName) with
  | none => none
  | some p =>
    (p.Required.find? (fun required => requiredFieldValue sel required = "")).map
      (fun required => (required, providerName))

/-- Outcome of the dispatch prefix of `GenerateCommitMessage`
(llm.go:223-267): either the ConfigurationError of the validation loop, or
the client-construction branch actually reached, recording the environment
variables set on the way (llm.go:249-263), or the unsupported-provider
error. -/
inductive GenStep where
  | configError (field provider : String)
  | clientInit (provider : String) (envSets : List (String × String))
  | unsupportedProvider (provider : String)
deriving DecidableEq

/-- llm.go:223-267 — validation followed by the provider `switch` that sets
credential environment variables and constructs the concrete client. -/
def dispatchPath (provider : String) (sel : ProviderConfig) : GenStep :=
  match validateRequired provider sel with
  | some (field, p) => .configError field p
  | none =>
    match provider with
    | "openai" => .clientInit "openai" [("OPENAI_API_KEY", sel.APIKey)]
    | "anthropic" => .clientInit "anthropic" [("ANTHROPIC_API_KEY", sel.APIKey)]
    | "ollama" =>
      .clientInit "ollama" [("OLLAMA_API_KEY", sel.APIKey), ("OLLAMA_URI", sel.URI)]
    | "google" => .clientInit "google" [("GOOGLE_API_KEY", sel.APIKey)]
    | other => .unsupportedProvider other

/-- llm.go:320-338 — `readCustomPrompt`, modelled over the observed state of
the `.gommitrules` file: `none` is an absent file (llm.go:322-324 returns
`""`), `some content` is a readable file whose bytes are `content`
(llm.go:331-333 also returns `""` for an empty file, which coincides with
`some []`). The unreadable-file error branch is not needed by the claims. -/
def readCustomPrompt (file : Option (List Char)) : List Char :=
  match file with
  | none => []
  | some content => content

/-- llm.go:202-208 — the system-instruction choice of
`GenerateCommitMessage`: a non-empty custom prompt longer than 100
characters is used with the security notice appended and compressed,
otherwise the built-in default rules are compressed. -/
def promptToUse (customPrompt : List Char) : List Char :=
  if customPrompt ≠ [] ∧ customPrompt.length > 100 then
    compressPrompt (customPrompt ++ ("\n\n").toList ++ securityPrompt)
  else
    compressPrompt systemPrompt

/-- llm.go:47-51 — `messageLimitByStyle` (a Go map, embedded as the
association list it is written as; `lookupStyle` is map indexing). -/
def messageLimitByStyle : List (String × Nat) :=
  [("conventional", 500), ("simple", 100), ("detailed", 1000)]

/-- Go `limit, ok := messageLimitByStyle[style]` (llm.go:211). -/
def lookupStyle (style : String) : Option Nat :=
  messageLimitByStyle.lookup style

/-- llm.go:212 — the length directive appended for a known style. -/
def limitDirective (limit : Nat) : List Char :=
  ("You must generate a commit message under " ++ toString limit ++
    " characters.").toList

/-- llm.go:210-213 — append the style's character budget to the system
instructions when the style is a known one. -/
def applyStyleLimit (style : String) (prompt : List Char) : List Char :=
  match lookupStyle style with
  | some limit => prompt ++ ("\n\n").toList ++ limitDirective limit
  | none => prompt

/-- llm.go:190-194 — effective commit style: the provider-specific
`commit_style` when non-empty, else the global configuration style. -/
def effectiveStyle (cfg : Config) (sel : ProviderConfig) : String :=
  if sel.CommitStyle ≠ "" then sel.CommitStyle else cfg.CommitStyle

/-- llm.go:299-318 — `requiresDefaultTemperature` (`strings.HasPrefix` is
prefix testing on the character lists). -/
def requiresDefaultTemperature (provider : String) (model : String) : Bool :=
  if provider ≠ "openai" then false
  else
    (["gpt-5", "gpt-4.1", "gpt-4o"]).any (fun p => p.toList.isPrefixOf model.toList)

/-- llm.go:279-285 — the temperature entry of the per-call options:
`some v` stands for an appended `llms.WithTemperature v`, `none` for no
temperature option. -/
def temperatureCallOption (provider model : String) (temperature : ℚ) :
    Option ℚ :=
  if requiresDefaultTemperature provider model then some 1
  else if temperature > 0 then some temperature
  else none

/-- The classified failures of `GenerateCommitMessage` (spec §7). -/
inductive GenFailure where
  | generation
  | emptyResponse
deriving DecidableEq

/-- llm.go:287-296 — the response handling of `GenerateCommitMessage`:
`none` models the provider call returning an error (GenerationError), and a
returned text that is blank after trimming yields the EmptyResponseError;
otherwise the response is returned as-is. -/
def extractResponse (callResult : Option (List Char)) :
    Except GenFailure (List Char) :=
  match callResult with
  | none => .error .generation
  | some response =>
    if trimSpace response = [] then .error .emptyResponse
    else .ok response

/-- Claim C1 (evidence of the code bug): with provider `"openai"` and an
empty `api_key`, the validation loop of `GenerateCommitMessage` finds no
catalog entry — it compares the catalog's display `Name` (`"OpenAI"`)
against the lowercase provider key — so no ConfigurationError is produced;
instead the `OPENAI_API_KEY` environment variable is set to `""` and the
client constructor is reached.  The catalog entry whose `Title` is
`"openai"` does require `api_key`, so matching by `Title` (as every caller
and the setup wizard do) would have caught the missing field. -/
theorem generateSkipsRequiredValidation :
    validateRequired "openai" ⟨"", "", "gpt-4o-mini", 0, ""⟩ = none ∧
    dispatchPath "openai" ⟨"", "", "gpt-4o-mini", 0, ""⟩ =
      .clientInit "openai" [("OPENAI_API_KEY", "")] ∧
    Providers.find? (fun p => p.Name = "openai") = none ∧
    (Providers.find? (fun p => p.Title = "openai")).map ProviderTypes.Required =
      some ["api_key"] := by
  decide

/-- Claim C2, counterexample: a 100-character line capped at width 60 is cut
to 60 characters, but the `...[truncated]...` marker is NOT appended — the
marker is appended only when the original length plus 20 exceeds
`maxDiffLength` (llm.go:146). -/
theorem widthCapMarkerNotAlwaysAppended :
    (List.replicate 100 'a').length > 60 ∧
    widthCap 60 (List.replicate 100 'a') = List.replicate 60 'a' ∧
    widthCap 60 (List.replicate 100 'a') ≠ List.replicate 60 'a' ++ markerChars := by
  decide

/-- Claim C2 (amended): every line longer than `maxLineWidth` is cut to
exactly `maxLineWidth` characters, and the ellipsis marker is appended to
the shortened line exactly when the original line length plus 20 exceeds
the absolute ceiling `maxDiffLength`. -/
theorem widthCap_long_line (line : List Char) (w : Nat) (h : line.length > w) :
    widthCap w line =
      if line.length + 20 > maxDiffLength then line.take w ++ markerChars
      else line.take w := by
  rw [widthCap, if_pos h]

/-- Concrete instance of `widthCap_long_line` at a 100-character line and
width 60. -/
theorem widthCap_long_line_witness :
    widthCap 60 (List.replicate 100 'a') = List.replicate 60 'a' :=
  (widthCap_long_line (List.replicate 100 'a') 60 (by decide)).trans (by decide)

/-- Claim C5: for `truncateLines` in 1..3 the shaper behaves exactly as with
the clamped value 3, and the clamp warning is surfaced to the caller. -/
theorem truncateDiff_clamped (d : List Char) (w t : Nat)
    (h : t = 1 ∨ t = 2 ∨ t = 3) :
    truncateDiff d t w = truncateDiff d 3 w ∧
    (truncateDiff d t w).snd = true := by
  rcases h with rfl | rfl | rfl <;>
    refine ⟨rfl, ?_⟩ <;> simp [truncateDiff, apply_ite Prod.snd]

/-- Concrete instance of `truncateDiff_clamped` at `truncateLines = 1`. -/
theorem truncateDiff_clamped_witness :
    truncateDiff (("a\nb\nc\nd\ne\nf\ng\nh").toList) 1 300 =
      truncateDiff (("a\nb\nc\nd\ne\nf\ng\nh").toList) 3 300 ∧
    (truncateDiff (("a\nb\nc\nd\ne\nf\ng\nh").toList) 1 300).snd = true :=
  truncateDiff_clamped (("a\nb\nc\nd\ne\nf\ng\nh").toList) 300 1 (Or.inl rfl)

/-- Claim C6: a non-empty custom-rules document longer than 100 characters
becomes the system instructions with the security notice appended and
compressed; an absent, empty, or at-most-100-character document leaves the
compressed built-in default rules as the instructions (independent of the
short custom text). -/
theorem customPromptSelection (file : Option (List Char)) :
    (readCustomPrompt file ≠ [] ∧ (readCustomPrompt file).length > 100 →
      promptToUse (readCustomPrompt file) =
        compressPrompt (readCustomPrompt file ++ ("\n\n").toList ++ securityPrompt)) ∧
    (readCustomPrompt file = [] ∨ (readCustomPrompt file).length ≤ 100 →
      promptToUse (readCustomPrompt file) = compressPrompt systemPrompt) := by
  constructor
  · intro h
    rw [promptToUse, if_pos h]
  · intro h
    rw [promptToUse, if_neg]
    rintro ⟨hne, hlen⟩
    rcases h with h | h
    · exact hne h
    · omega

/-- Concrete instance of `customPromptSelection`: an absent custom-rules
file selects the compressed built-in rules. -/
theorem customPromptSelection_witness :
    promptToUse (readCustomPrompt none) = compressPrompt systemPrompt :=
  (customPromptSelection none).2 (Or.inl rfl)

/-- Helper for Claim C7: the temperature lock holds exactly for the openai
provider together with one of the three model-name prefixes of llm.go:307. -/
theorem requiresDefaultTemperature_iff (provider model : String) :
    requiresDefaultTemperature provider model = true ↔
      provider = "openai" ∧
        (("gpt-5").toList.isPrefixOf model.toList = true ∨
          ("gpt-4.1").toList.isPrefixOf model.toList = true ∨
          ("gpt-4o").toList.isPrefixOf model.toList = true) := by
  rw [requiresDefaultTemperature]
  by_cases hp : provider = "openai"
  · simp [hp, List.any, or_assoc]
  · simp [hp]

/-- Claim C7: for openai models whose name starts with `gpt-5`, `gpt-4.1`
or `gpt-4o`, the call options carry the forced default temperature `1` no
matter what the caller configured; for every other provider/model
combination a configured temperature strictly greater than `0` is forwarded
unchanged and a temperature of `0` or less adds no temperature option. -/
theorem temperaturePolicy (provider model : String) (temperature : ℚ) :
    (provider = "openai" ∧
        (("gpt-5").toList.isPrefixOf model.toList = true ∨
          ("gpt-4.1").toList.isPrefixOf model.toList = true ∨
          ("gpt-4o").toList.isPrefixOf model.toList = true) →
      temperatureCallOption provider model temperature = some 1) ∧
    (¬(provider = "openai" ∧
        (("gpt-5").toList.isPrefixOf model.toList = true ∨
          ("gpt-4.1").toList.isPrefixOf model.toList = true ∨
          ("gpt-4o").toList.isPrefixOf model.toList = true)) →
      (0 < temperature →
        temperatureCallOption provider model temperature = some temperature) ∧
      (temperature ≤ 0 →
        temperatureCallOption provider model temperature = none)) := by
  constructor
  · intro h
    rw [temperatureCallOption,
      if_pos ((requiresDefaultTemperature_iff provider model).mpr h)]
  · intro h
    have hreq : ¬ requiresDefaultTemperature provider model = true := by
      rw [requiresDefaultTemperature_iff]; exact h
    constructor <;> intro ht
    · rw [temperatureCallOption, if_neg hreq, if_pos ht]
    · rw [temperatureCallOption, if_neg hreq, if_neg (by exact not_lt.mpr ht)]

/-- Concrete instances of `temperaturePolicy`: `gpt-4o-mini` on openai
forces temperature `1` even when `0.7` was configured, and the same
configured `0.7` is forwarded unchanged for an anthropic model. -/
theorem temperaturePolicy_witness :
    temperatureCallOption "openai" "gpt-4o-mini" (7/10) = some 1 ∧
    temperatureCallOption "anthropic" "claude-3-5-haiku-latest" (7/10) =
      some (7/10) :=
  ⟨(temperaturePolicy "openai" "gpt-4o-mini" (7/10)).1
      ⟨rfl, Or.inr (Or.inr (by decide))⟩,
    ((temperaturePolicy "anthropic" "claude-3-5-haiku-latest" (7/10)).2
      (by rintro ⟨h, -⟩; exact absurd h (by decide))).1 (by norm_num)⟩

/-- Claim C8: the effective commit style is the provider-specific
`commit_style` when non-empty and the global configuration style otherwise,
and for the three known styles the explicit character-budget directive with
500 / 100 / 1000 is appended to the system instructions. -/
theorem styleResolutionAndLimit (cfg : Config) (sel : ProviderConfig)
    (prompt : List Char) :
    (sel.CommitStyle ≠ "" → effectiveStyle cfg sel = sel.CommitStyle) ∧
    (sel.CommitStyle = "" → effectiveStyle cfg sel = cfg.CommitStyle) ∧
    applyStyleLimit "conventional" prompt =
      prompt ++
        ("\n\nYou must generate a commit message under 500 characters.").toList ∧
    applyStyleLimit "simple" prompt =
      prompt ++
        ("\n\nYou must generate a commit message under 100 characters.").toList ∧
    applyStyleLimit "detailed" prompt =
      prompt ++
        ("\n\nYou must generate a commit message under 1000 characters.").toList := by
  refine ⟨fun h => ?_, fun h => ?_, ?_, ?_, ?_⟩
  · rw [effectiveStyle, if_pos h]
  · rw [effectiveStyle, if_neg (by simp [h])]
  · show prompt ++ ("\n\n").toList ++ limitDirective 500 = _
    rw [List.append_assoc]
    congr 1
  · show prompt ++ ("\n\n").toList ++ limitDirective 100 = _
    rw [List.append_assoc]
    congr 1
  · show prompt ++ ("\n\n").toList ++ limitDirective 1000 = _
    rw [List.append_assoc]
    congr 1

/-- Concrete instance of `styleResolutionAndLimit`: a provider override
`"simple"` wins over a global `"conventional"`, and the 100-character
directive is the one appended for it. -/
theorem styleResolutionAndLimit_witness :
    effectiveStyle
        ⟨"openai", [], 500, "conventional", 3, 300⟩
        ⟨"key", "", "gpt-4o-mini", 0, "simple"⟩ = "simple" ∧
    applyStyleLimit "simple" [] =
      ("\n\nYou must generate a commit message under 100 characters.").toList := by
  have h := styleResolutionAndLimit
    ⟨"openai", [], 500, "conventional", 3, 300⟩
    ⟨"key", "", "gpt-4o-mini", 0, "simple"⟩ []
  exact ⟨h.1 (by decide), by simpa using h.2.2.2.1⟩

/-- Claim C9: the provider call erroring yields the GenerationError; a
returned text yields the EmptyResponseError exactly when it is blank after
trimming; on success the returned message is the provider text unmodified
and is therefore non-blank after trimming. -/
theorem responseExtraction (response : List Char) :
    extractResponse none = .error .generation ∧
    (extractResponse (some response) = .error .emptyResponse ↔
      trimSpace response = []) ∧
    (∀ m, extractResponse (some response) = .ok m →
      m = response ∧ trimSpace m ≠ []) := by
  refine ⟨rfl, ?_, ?_⟩
  · by_cases h : trimSpace response = [] <;> simp [extractResponse, h]
  · by_cases h : trimSpace response = [] <;> simp [extractResponse, h]

/-- Concrete instance of `responseExtraction`: a canned response with
surrounding blanks is returned as-is and is non-blank after trimming. -/
theorem responseExtraction_witness :
    (" feat: add x ").toList = (" feat: add x ").toList ∧
    trimSpace ((" feat: add x ").toList) ≠ [] :=
  (responseExtraction ((" feat: add x ").toList)).2.2
    ((" feat: add x ").toList)
    (by rw [extractResponse]; exact if_neg (by decide))

/-- `strings.Split` never yields an empty slice. -/
theorem splitLines_ne_nil (s : List Char) : splitLines s ≠ [] := by
  induction s with
  | nil => simp [splitLines]
  | cons c cs ih =>
    rw [splitLines]
    by_cases h : c = '\n'
    · simp [h]
    · rw [if_neg h]
      cases hs : splitLines cs <;> simp

/-- Lines produced by `splitLines` contain no newline character. -/
theorem not_newline_of_mem_splitLines {s l : List Char}
    (hl : l ∈ splitLines s) : '\n' ∉ l := by
  induction s generalizing l with
  | nil =>
    simp only [splitLines, List.mem_singleton] at hl
    simp [hl]
  | cons c cs ih =>
    rw [splitLines] at hl
    by_cases h : c = '\n'
    · rw [if_pos h] at hl
      rcases List.mem_cons.mp hl with rfl | hmem
      · simp
      · exact ih hmem
    · rw [if_neg h] at hl
      cases hs : splitLines cs with
      | nil => exact absurd hs (splitLines_ne_nil cs)
      | cons l0 ls =>
        rw [hs] at hl
        rcases List.mem_cons.mp hl with rfl | hmem
        · intro hmem2
          rcases List.mem_cons.mp hmem2 with h2 | h2
          · exact h h2.symm
          · exact ih (by rw [hs]; exact List.mem_cons_self _ _) h2
        · exact ih (by rw [hs]; exact List.mem_cons.mpr (Or.inr hmem))

/-- Splitting a newline-free string yields that single line. -/
theorem splitLines_of_no_newline {l : List Char} (h : '\n' ∉ l) :
    splitLines l = [l] := by
  induction l with
  | nil => rfl
  | cons c cs ih =>
    have hc : ¬ c = '\n' := by rintro rfl; exact h (List.mem_cons_self _ _)
    have hcs : '\n' ∉ cs := fun hm => h (List.mem_cons.mpr (Or.inr hm))
    rw [splitLines, if_neg hc, ih hcs]

/-- Splitting past an explicit newline peels off the leading line. -/
theorem splitLines_append_cons {l : List Char} (r : List Char)
    (h : '\n' ∉ l) : splitLines (l ++ '\n' :: r) = l :: splitLines r := by
  induction l with
  | nil => simp [splitLines]
  | cons c cs ih =>
    have hc : ¬ c = '\n' := by rintro rfl; exact h (List.mem_cons_self _ _)
    have hcs : '\n' ∉ cs := fun hm => h (List.mem_cons.mpr (Or.inr hm))
    rw [List.cons_append, splitLines, if_neg hc, ih hcs]

/-- Unfolding of `joinLines` on a list with at least two lines. -/
theorem joinLines_cons (l : List Char) (ls : List (List Char)) (h : ls ≠ []) :
    joinLines (l :: ls) = l ++ '\n' :: joinLines ls := by
  cases ls with
  | nil => exact absurd rfl h
  | cons l2 ls2 => rfl

/-- `strings.Split` is a left inverse of `strings.Join` on non-empty lists
of newline-free lines. -/
theorem splitLines_joinLines {ls : List (List Char)} (h1 : ls ≠ [])
    (h2 : ∀ l ∈ ls, '\n' ∉ l) : splitLines (joinLines ls) = ls := by
  induction ls with
  | nil => exact absurd rfl h1
  | cons l ls ih =>
    cases ls with
    | nil => exact splitLines_of_no_newline (h2 l (List.mem_cons_self _ _))
    | cons l2 ls2 =>
      show splitLines (l ++ '\n' :: joinLines (l2 :: ls2)) = _
      rw [splitLines_append_cons _ (h2 l (List.mem_cons_self _ _)),
        ih (by simp) (fun x hx => h2 x (List.mem_cons.mpr (Or.inr hx)))]

/-- `strings.Join` distributes over list append (both halves non-empty). -/
theorem joinLines_append (xs ys : List (List Char)) (hx : xs ≠ [])
    (hy : ys ≠ []) :
    joinLines (xs ++ ys) = joinLines xs ++ '\n' :: joinLines ys := by
  obtain ⟨x, xs, rfl⟩ := List.exists_cons_of_ne_nil hx
  induction xs generalizing x with
  | nil =>
    obtain ⟨y, ys2, rfl⟩ := List.exists_cons_of_ne_nil hy
    rfl
  | cons x2 xs2 ih =>
    calc joinLines ((x :: x2 :: xs2) ++ ys)
        = x ++ '\n' :: joinLines ((x2 :: xs2) ++ ys) := rfl
      _ = x ++ '\n' :: (joinLines (x2 :: xs2) ++ '\n' :: joinLines ys) := by
            rw [ih x2 (by simp)]
      _ = joinLines (x :: x2 :: xs2) ++ '\n' :: joinLines ys := by
            rw [joinLines_cons x (x2 :: xs2) (by simp)]
            simp

/-- Width-capping keeps lines newline-free (the marker has no newline). -/
theorem not_newline_widthCap {l : List Char} (w : Nat) (h : '\n' ∉ l) :
    '\n' ∉ widthCap w l := by
  rw [widthCap]
  split
  · split
    · intro hm
      rcases List.mem_append.mp hm with hm | hm
      · exact h (List.take_subset _ _ hm)
      · exact absurd hm (by decide)
    · intro hm
      exact h (List.take_subset _ _ hm)
  · exact h

/-- The width-capped line list of `truncateDiff` is non-empty and
newline-free. -/
theorem cappedLines_ok (d : List Char) (w : Nat) :
    (splitLines d).map (widthCap w) ≠ [] ∧
    ∀ l ∈ (splitLines d).map (widthCap w), '\n' ∉ l := by
  constructor
  · simp [splitLines_ne_nil d]
  · intro l hl
    rcases List.mem_map.mp hl with ⟨x, hx, rfl⟩
    exact not_newline_widthCap w (not_newline_of_mem_splitLines hx)

/-- Claim C3: with `truncateLines = 0` the shaper returns the width-capped
diff line-for-line — same line count, same order, no marker line inserted —
and surfaces no warning. -/
theorem truncateDiffNoLineLimit (d : List Char) (w : Nat) :
    splitLines (truncateDiff d 0 w).fst = (splitLines d).map (widthCap w) ∧
    (splitLines (truncateDiff d 0 w).fst).length = (splitLines d).length ∧
    (truncateDiff d 0 w).snd = false := by
  obtain ⟨hne, hnl⟩ := cappedLines_ok d w
  have h1 : truncateDiff d 0 w =
      (joinLines ((splitLines d).map (widthCap w)), false) := rfl
  rw [h1]
  refine ⟨splitLines_joinLines hne hnl, ?_, rfl⟩
  rw [splitLines_joinLines hne hnl, List.length_map]

/-- Claim C4, counterexample: on a diff whose eight lines all already read
`...[truncated]...`, the truncated output (threshold `2*3+1 = 7 < 8`)
contains seven marker lines, not exactly one — the inserted marker line is
indistinguishable from retained input lines equal to it. -/
theorem truncateDiffMarkerNotUnique :
    (splitLines (joinLines (List.replicate 8 markerChars))).length = 8 ∧
    3 * 2 + 1 < 8 ∧
    (splitLines
        (truncateDiff (joinLines (List.replicate 8 markerChars)) 3 300).fst).count
      markerChars = 7 ∧
    (splitLines
        (truncateDiff (joinLines (List.replicate 8 markerChars)) 3 300).fst).count
      markerChars ≠ 1 := by
  decide

/-- Claim C4 (amended): for `truncateLines ≥ 1` (clamped to 3 when ≤ 3), a
diff of at most `2*t+1` lines is returned line-for-line width-capped; a
longer diff yields exactly the first `t` width-capped lines, one inserted
`...[truncated]...` line, and the last `t` width-capped lines, in order —
and when no retained width-capped line itself equals the marker, the output
contains exactly one marker line. -/
theorem truncateDiffEnds (d : List Char) (t w : Nat) (ht : 1 ≤ t) :
    ((splitLines d).length ≤ (if t ≤ 3 then 3 else t) * 2 + 1 →
      splitLines (truncateDiff d t w).fst = (splitLines d).map (widthCap w)) ∧
    ((if t ≤ 3 then 3 else t) * 2 + 1 < (splitLines d).length →
      splitLines (truncateDiff d t w).fst =
        ((splitLines d).map (widthCap w)).take (if t ≤ 3 then 3 else t) ++
          markerChars ::
            ((splitLines d).map (widthCap w)).drop
              ((splitLines d).length - (if t ≤ 3 then 3 else t)) ∧
      (markerChars ∉
          ((splitLines d).map (widthCap w)).take (if t ≤ 3 then 3 else t) ∧
        markerChars ∉
          ((splitLines d).map (widthCap w)).drop
            ((splitLines d).length - (if t ≤ 3 then 3 else t)) →
        (splitLines (truncateDiff d t w).fst).count markerChars = 1)) := by
  have h0 : ¬ t = 0 := by omega
  obtain ⟨hne, hnl⟩ := cappedLines_ok d w
  have hmaplen : ((splitLines d).map (widthCap w)).length = (splitLines d).length :=
    List.length_map _ _
  set t2 := if t ≤ 3 then 3 else t with ht2def
  have ht2 : 3 ≤ t2 := by rw [ht2def]; split <;> omega
  set L := (splitLines d).map (widthCap w) with hLdef
  constructor
  · intro hle
    have heq : truncateDiff d t w = (joinLines L, decide (t ≤ 3)) := by
      simp only [truncateDiff]
      rw [if_neg h0, if_pos (by rw [← ht2def, hmaplen]; exact hle)]
    rw [heq]
    exact splitLines_joinLines hne hnl
  · intro hgt
    have hLgt : ¬ (L.length ≤ t2 * 2 + 1) := by rw [hLdef, hmaplen]; omega
    have heq : truncateDiff d t w =
        (joinLines (L.take t2) ++
          (('\n' :: markerChars) ++
            ('\n' :: joinLines (L.drop (L.length - t2)))),
          decide (t ≤ 3)) := by
      simp only [truncateDiff]
      rw [if_neg h0, if_neg (by rw [← ht2def]; exact hLgt)]
    have hfp_len : (L.take t2).length = t2 := by
      rw [List.length_take]
      omega
    have hlp_len : (L.drop (L.length - t2)).length = t2 := by
      rw [List.length_drop]
      omega
    have hfp_ne : L.take t2 ≠ [] := by
      intro hn
      rw [hn] at hfp_len
      simp at hfp_len
      omega
    have hlp_ne : L.drop (L.length - t2) ≠ [] := by
      intro hn
      rw [hn] at hlp_len
      simp at hlp_len
      omega
    have hjoin :
        joinLines (L.take t2) ++
          (('\n' :: markerChars) ++
            ('\n' :: joinLines (L.drop (L.length - t2)))) =
        joinLines (L.take t2 ++ markerChars :: L.drop (L.length - t2)) := by
      rw [joinLines_append (L.take t2) (markerChars :: L.drop (L.length - t2))
        hfp_ne (by simp),
        joinLines_cons markerChars (L.drop (L.length - t2)) hlp_ne]
      simp
    have hnl2 : ∀ l ∈ L.take t2 ++ markerChars :: L.drop (L.length - t2),
        '\n' ∉ l := by
      intro l hl
      rcases List.mem_append.mp hl with hm | hm
      · exact hnl l (List.take_subset _ _ hm)
      · rcases List.mem_cons.mp hm with rfl | hm2
        · decide
        · exact hnl l (List.drop_subset _ _ hm2)
    have hsplit : splitLines (truncateDiff d t w).fst =
        L.take t2 ++ markerChars :: L.drop (L.length - t2) := by
      rw [heq]
      show splitLines (joinLines (L.take t2) ++
        (('\n' :: markerChars) ++
          ('\n' :: joinLines (L.drop (L.length - t2))))) = _
      rw [hjoin]
      exact splitLines_joinLines (by simp [hfp_ne]) hnl2
    rw [← hmaplen, hsplit]
    refine ⟨rfl, ?_⟩
    rintro ⟨hm1, hm2⟩
    rw [List.count_append, List.count_cons_self,
      List.count_eq_zero.mpr hm1, List.count_eq_zero.mpr hm2]

/-- Concrete instance of `truncateDiffEnds`: an eight-line diff with
`truncateLines = 3` keeps the first three and last three lines around one
marker line, which is then the only one. -/
theorem truncateDiffEnds_witness :
    splitLines
        (truncateDiff (("l1\nl2\nl3\nl4\nl5\nl6\nl7\nl8").toList) 3 300).fst =
      [("l1").toList, ("l2").toList, ("l3").toList, markerChars,
        ("l6").toList, ("l7").toList, ("l8").toList] ∧
    (splitLines
        (truncateDiff (("l1\nl2\nl3\nl4\nl5\nl6\nl7\nl8").toList) 3 300).fst).count
      markerChars = 1 := by
  have h := (truncateDiffEnds (("l1\nl2\nl3\nl4\nl5\nl6\nl7\nl8").toList) 3 300
    (by decide)).2 (by decide)
  exact ⟨h.1.trans (by decide), h.2 (by decide)⟩

/-- A list fixed by `dropWhile` starts with an element refuting the
predicate. -/
theorem head_false_of_dropWhile_fix {p : Char → Bool} {c : Char}
    {cs : List Char} (h : List.dropWhile p (c :: cs) = c :: cs) :
    p c = false := by
  by_cases hp : p c = true
  · rw [List.dropWhile_cons_of_pos hp] at h
    have hlen := congrArg List.length h
    have hle : (List.dropWhile p cs).length ≤ cs.length :=
      (List.dropWhile_suffix p).sublist.length_le
    simp only [List.length_cons] at hlen
    omega
  · exact Bool.eq_false_iff.mpr hp

/-- `dropWhile` keeps a list whose head refutes the predicate. -/
theorem dropWhile_fix_of_head {p : Char → Bool} {c : Char} (cs : List Char)
    (h : p c = false) : List.dropWhile p (c :: cs) = c :: cs :=
  List.dropWhile_cons_of_neg (by simp [h])

/-- A trim fixed point is fixed by both one-sided trims. -/
theorem trim_fix_parts {s : List Char} (h : trimSpace s = s) :
    List.dropWhile isSpace s = s ∧ List.rdropWhile isSpace s = s := by
  have h1 : List.dropWhile isSpace s <:+ s := List.dropWhile_suffix _
  have h2 := List.rdropWhile_prefix isSpace (List.dropWhile isSpace s)
  have l1 : (List.dropWhile isSpace s).length ≤ s.length := h1.sublist.length_le
  have l2 : (List.rdropWhile isSpace (List.dropWhile isSpace s)).length ≤
      (List.dropWhile isSpace s).length := h2.sublist.length_le
  have hlen : (List.rdropWhile isSpace (List.dropWhile isSpace s)).length =
      s.length := by
    rw [show List.rdropWhile isSpace (List.dropWhile isSpace s) = s from h]
  have e1 : List.dropWhile isSpace s = s := h1.sublist.eq_of_length (by omega)
  refine ⟨e1, ?_⟩
  rw [show trimSpace s = List.rdropWhile isSpace (List.dropWhile isSpace s)
    from rfl, e1] at h
  exact h

/-- `strings.TrimSpace` is idempotent. -/
theorem trimSpace_fixed (x : List Char) :
    trimSpace (trimSpace x) = trimSpace x := by
  have hdw : List.dropWhile isSpace (trimSpace x) = trimSpace x := by
    cases hc : trimSpace x with
    | nil => rfl
    | cons c cs =>
      apply dropWhile_fix_of_head
      have hpre := List.rdropWhile_prefix isSpace (List.dropWhile isSpace x)
      rw [show List.rdropWhile isSpace (List.dropWhile isSpace x) = trimSpace x
        from rfl, hc] at hpre
      obtain ⟨tail, htail⟩ := hpre
      have hd : List.dropWhile isSpace x = c :: (cs ++ tail) := by
        rw [← htail, List.cons_append]
      have hfix : List.dropWhile isSpace (c :: (cs ++ tail)) =
          c :: (cs ++ tail) := by
        rw [← hd]
        exact List.dropWhile_idempotent _ _
      exact head_false_of_dropWhile_fix hfix
  show List.rdropWhile isSpace (List.dropWhile isSpace (trimSpace x)) =
    trimSpace x
  rw [hdw]
  show List.rdropWhile isSpace
    (List.rdropWhile isSpace (List.dropWhile isSpace x)) = _
  exact List.rdropWhile_idempotent _ _

/-- Trimming only removes elements. -/
theorem trimSpace_subset (x : List Char) : trimSpace x ⊆ x := by
  intro a ha
  have h2 := List.rdropWhile_prefix isSpace (List.dropWhile isSpace x)
  have h1 := List.dropWhile_suffix (l := x) isSpace
  exact h1.sublist.subset (h2.sublist.subset ha)

/-- A join of non-empty left-trim fixed points is itself fixed by the left
trim: its first character is the first line's non-space head. -/
theorem dropWhile_joinLines_fix {ls : List (List Char)}
    (h : ∀ l ∈ ls, l ≠ [] ∧ List.dropWhile isSpace l = l) (hne : ls ≠ []) :
    List.dropWhile isSpace (joinLines ls) = joinLines ls := by
  obtain ⟨l, ls2, rfl⟩ := List.exists_cons_of_ne_nil hne
  obtain ⟨hlne, hlfix⟩ := h l (List.mem_cons_self _ _)
  obtain ⟨c, cs, rfl⟩ := List.exists_cons_of_ne_nil hlne
  have hc : isSpace c = false := head_false_of_dropWhile_fix hlfix
  cases ls2 with
  | nil => exact hlfix
  | cons l2 ls3 =>
    show List.dropWhile isSpace ((c :: cs) ++ '\n' :: joinLines (l2 :: ls3)) = _
    rw [List.cons_append]
    exact dropWhile_fix_of_head _ hc

/-- Reversing a join reverses the lines and their order. -/
theorem joinLines_reverse (ls : List (List Char)) :
    (joinLines ls).reverse = joinLines ((ls.map List.reverse).reverse) := by
  induction ls with
  | nil => rfl
  | cons l ls ih =>
    cases ls with
    | nil => rfl
    | cons l2 ls2 =>
      calc (joinLines (l :: l2 :: ls2)).reverse
          = (joinLines (l2 :: ls2)).reverse ++ '\n' :: l.reverse := by
            show (l ++ '\n' :: joinLines (l2 :: ls2)).reverse = _
            rw [List.reverse_append, List.reverse_cons, List.append_assoc,
              List.singleton_append]
        _ = joinLines (((l2 :: ls2).map List.reverse).reverse) ++
              '\n' :: l.reverse := by rw [ih]
        _ = joinLines (((l :: l2 :: ls2).map List.reverse).reverse) := by
            rw [show ((l :: l2 :: ls2).map List.reverse).reverse =
                ((l2 :: ls2).map List.reverse).reverse ++ [l.reverse] by simp,
              joinLines_append (((l2 :: ls2).map List.reverse).reverse)
                [l.reverse] (by simp) (by simp)]
            rfl

/-- A join of non-empty right-trim fixed points is fixed by the right
trim. -/
theorem rdropWhile_joinLines_fix {ls : List (List Char)}
    (h : ∀ l ∈ ls, l ≠ [] ∧ List.rdropWhile isSpace l = l) (hne : ls ≠ []) :
    List.rdropWhile isSpace (joinLines ls) = joinLines ls := by
  have hne2 : (ls.map List.reverse).reverse ≠ [] := by
    simp [hne]
  have h2 : ∀ l ∈ (ls.map List.reverse).reverse,
      l ≠ [] ∧ List.dropWhile isSpace l = l := by
    intro l hl
    rw [List.mem_reverse, List.mem_map] at hl
    obtain ⟨x, hx, rfl⟩ := hl
    obtain ⟨hxne, hxfix⟩ := h x hx
    refine ⟨by simpa using hxne, ?_⟩
    have hrev := congrArg List.reverse hxfix
    rw [List.rdropWhile, List.reverse_reverse] at hrev
    exact hrev
  rw [List.rdropWhile, joinLines_reverse,
    dropWhile_joinLines_fix h2 hne2, ← joinLines_reverse, List.reverse_reverse]

/-- A join of non-empty trim fixed points is a trim fixed point. -/
theorem trimSpace_joinLines_fix {ls : List (List Char)}
    (h : ∀ l ∈ ls, l ≠ [] ∧ trimSpace l = l) :
    trimSpace (joinLines ls) = joinLines ls := by
  cases ls with
  | nil => rfl
  | cons l ls2 =>
    have h2 : ∀ x ∈ l :: ls2, x ≠ [] ∧ List.dropWhile isSpace x = x ∧
        List.rdropWhile isSpace x = x := by
      intro x hx
      obtain ⟨hne, hfix⟩ := h x hx
      obtain ⟨ha, hb⟩ := trim_fix_parts hfix
      exact ⟨hne, ha, hb⟩
    show List.rdropWhile isSpace
      (List.dropWhile isSpace (joinLines (l :: ls2))) = _
    rw [dropWhile_joinLines_fix (fun x hx => ⟨(h2 x hx).1, (h2 x hx).2.1⟩)
      (by simp)]
    exact rdropWhile_joinLines_fix
      (fun x hx => ⟨(h2 x hx).1, (h2 x hx).2.2⟩) (by simp)

/-- Claim C10: `compressPrompt` is idempotent — its output is already a
fixed point (no empty lines, every line trimmed, whole string trimmed), so
compressing a second time changes nothing. -/
theorem compressPromptIdempotent (s : List Char) :
    compressPrompt (compressPrompt s) = compressPrompt s := by
  set ls := ((splitLines s).map trimSpace).filter (fun l => l ≠ []) with hls
  have hfix : ∀ l ∈ ls, l ≠ [] ∧ trimSpace l = l := by
    intro l hl
    rw [hls, List.mem_filter] at hl
    obtain ⟨hmem, hne⟩ := hl
    obtain ⟨x, hx, rfl⟩ := List.mem_map.mp hmem
    exact ⟨by simpa using hne, trimSpace_fixed x⟩
  have hjoin : trimSpace (joinLines ls) = joinLines ls :=
    trimSpace_joinLines_fix hfix
  have hcs : compressPrompt s = joinLines ls := by
    show trimSpace (joinLines
      (((splitLines s).map trimSpace).filter (fun l => l ≠ []))) = joinLines ls
    rw [← hls]
    exact hjoin
  rw [hcs]
  by_cases hnil : ls = []
  · rw [hnil]
    rfl
  · have hnl : ∀ l ∈ ls, '\n' ∉ l := by
      intro l hl
      rw [hls, List.mem_filter] at hl
      obtain ⟨hmem, _⟩ := hl
      obtain ⟨x, hx, rfl⟩ := List.mem_map.mp hmem
      intro hmem2
      exact not_newline_of_mem_splitLines hx (trimSpace_subset x hmem2)
    have hsj : splitLines (joinLines ls) = ls :=
      splitLines_joinLines hnil hnl
    have hmapfix : ls.map trimSpace = ls := by
      have := List.map_congr_left (l := ls) (f := trimSpace) (g := id)
        (fun a ha => (hfix a ha).2)
      rwa [List.map_id] at this
    have hfilterfix : ls.filter (fun l => l ≠ []) = ls :=
      List.filter_eq_self.mpr (fun a ha => by simpa using (hfix a ha).1)
    show trimSpace (joinLines
      (((splitLines (joinLines ls)).map trimSpace).filter (fun l => l ≠ []))) =
      joinLines ls
    rw [hsj, hmapfix, hfilterfix]
    exact hjoin
